import Mathlib

/-!
Verification of the k3sup `install` command core (cmd/install.go).

The development shallowly embeds the three parts of the code the claims
talk about:

* the kubeconfig rewrite pass (`rewriteKubeconfig`, built on Go's
  `strings.NewReplacer("127.0.0.1", ip, "localhost", ip, "default", context)`,
  a single left-to-right scan replacing the leftmost match at each position);
* the credential resolution logic (`loadAuthMethod` / `sshAgent`), embedded
  as functions over an explicit world of oracles (file system reads, agent
  socket dial, key parsing), returning results together with an effect
  trace (agent dials, file reads, passphrase prompts, closed connections);
* the kubeconfig persistence pipeline (`writeConfig` / `mergeConfigs` /
  `obtainKubeconfig`), embedded as explicit filesystem-state transformers.

Strings are embedded as `List Char`; byte strings of the SSH layer as
`List Nat`.
-/

set_option autoImplicit false

namespace K3sup

/-! ### The replacement tokens of `rewriteKubeconfig` -/

def tok127 : List Char := ['1', '2', '7', '.', '0', '.', '0', '.', '1']

def tokLocalhost : List Char := ['l', 'o', 'c', 'a', 'l', 'h', 'o', 's', 't']

def tokDefault : List Char := ['d', 'e', 'f', 'a', 'u', 'l', 't']

/-- A list is one of the three replaced tokens. -/
def IsTok (t : List Char) : Prop := t = tok127 ∨ t = tokLocalhost ∨ t = tokDefault

instance (t : List Char) : Decidable (IsTok t) := by unfold IsTok; infer_instance

/-- Some token starts at the head of `l`. -/
def TokStarts (l : List Char) : Prop := tok127 <+: l ∨ tokLocalhost <+: l ∨ tokDefault <+: l

instance (l : List Char) : Decidable (TokStarts l) := by unfold TokStarts; infer_instance

/-- Some token occurs somewhere inside `l`. -/
def TokOcc (l : List Char) : Prop := tok127 <:+: l ∨ tokLocalhost <:+: l ∨ tokDefault <:+: l

instance (l : List Char) : Decidable (TokOcc l) := by unfold TokOcc; infer_instance

/-- The single left-to-right scan performed by the Go
`strings.Replacer` built from the pairs `"127.0.0.1" → a`,
`"localhost" → a`, `"default" → c`: at each position the replacer
substitutes the (unique) matching token and resumes scanning after it,
and copies the character otherwise.  The replacement text is emitted
verbatim and is never rescanned. -/
def replRunF (a c : List Char) : Nat → List Char → List Char
  | 0, l => l
  | Nat.succ fuel, l =>
    match l with
    | [] => []
    | ch :: rest =>
      if tok127 <+: ch :: rest then a ++ replRunF a c fuel (rest.drop 8)
      else if tokLocalhost <+: ch :: rest then a ++ replRunF a c fuel (rest.drop 8)
      else if tokDefault <+: ch :: rest then c ++ replRunF a c fuel (rest.drop 6)
      else ch :: replRunF a c fuel rest

def replRun (a c l : List Char) : List Char := replRunF a c l.length l

/-- `rewriteKubeconfig` from cmd/install.go: an empty context defaults to
`"default"`, then the three textual substitutions run in one pass. -/
def rewriteKubeconfig (kubeconfig ip context : List Char) : List Char :=
  replRun ip (if context = [] then tokDefault else context) kubeconfig

/-- The replacement text the scanner emits for token `t`. -/
def replOf (a c t : List Char) : List Char := if t = tokDefault then c else a

/-! ### Small facts about the tokens and library wrappers -/

theorem isTok_ne_nil {t : List Char} (h : IsTok t) : t ≠ [] := by
  rcases h with h | h | h <;> subst h <;> decide

theorem isTok_two_le_length {t : List Char} (h : IsTok t) : 2 ≤ t.length := by
  rcases h with h | h | h <;> subst h <;> decide

theorem preNil {t : List Char} (h : t <+: ([] : List Char)) : t = [] :=
  List.prefix_nil.mp h

theorem occCons {t l : List Char} {ch : Char} (h : t <:+: l) : t <:+: ch :: l :=
  List.infix_cons h

theorem occConsIff {t l : List Char} {ch : Char} : t <:+: ch :: l ↔ t <+: ch :: l ∨ t <:+: l :=
  List.infix_cons_iff

theorem preAppendSelf (x y : List Char) : x <+: x ++ y :=
  List.prefix_append x y

theorem preAppendSplit {t u y : List Char} (h : t <+: u ++ y) :
    t <+: u ∨ ∃ v, t = u ++ v ∧ v <+: y := by
  obtain ⟨r, hr⟩ := h
  rcases List.append_eq_append_iff.mp hr with ⟨w, hw1, _⟩ | ⟨v, hv1, hv2⟩
  · exact Or.inl ⟨w, hw1.symm⟩
  · exact Or.inr ⟨v, hv1, ⟨r, hv2.symm⟩⟩

theorem notPreHeadNe {x y : Char} {xs ys : List Char} (h : x ≠ y) : ¬(x :: xs <+: y :: ys) :=
  fun hp => h (List.cons_prefix_cons.mp hp).1

/-! ### Unfolding lemmas for the scanner -/

theorem replRunF_congr {a c : List Char} : ∀ {n m : Nat} {l : List Char},
    l.length ≤ n → l.length ≤ m → replRunF a c n l = replRunF a c m l := by
  intro n
  induction n with
  | zero =>
    intro m l h1 _
    have h0 : l = [] := List.eq_nil_of_length_eq_zero (Nat.le_zero.mp h1)
    subst h0
    cases m <;> rfl
  | succ n ih =>
    intro m l h1 h2
    cases m with
    | zero =>
      have h0 : l = [] := List.eq_nil_of_length_eq_zero (Nat.le_zero.mp h2)
      subst h0
      rfl
    | succ m =>
      cases l with
      | nil => rfl
      | cons ch rest =>
        simp only [replRunF]
        have hr : rest.length ≤ n := by simp only [List.length_cons] at h1; omega
        have hrm : rest.length ≤ m := by simp only [List.length_cons] at h2; omega
        have h8 : (rest.drop 8).length ≤ n := by simp only [List.length_drop]; omega
        have h8m : (rest.drop 8).length ≤ m := by simp only [List.length_drop]; omega
        have h6 : (rest.drop 6).length ≤ n := by simp only [List.length_drop]; omega
        have h6m : (rest.drop 6).length ≤ m := by simp only [List.length_drop]; omega
        by_cases c1 : tok127 <+: ch :: rest
        · rw [if_pos c1, if_pos c1, ih h8 h8m]
        · rw [if_neg c1, if_neg c1]
          by_cases c2 : tokLocalhost <+: ch :: rest
          · rw [if_pos c2, if_pos c2, ih h8 h8m]
          · rw [if_neg c2, if_neg c2]
            by_cases c3 : tokDefault <+: ch :: rest
            · rw [if_pos c3, if_pos c3, ih h6 h6m]
            · rw [if_neg c3, if_neg c3, ih hr hrm]

theorem replRun_nil {a c : List Char} : replRun a c [] = [] := rfl

theorem replRun_t127 {a c : List Char} {ch : Char} {rest : List Char}
    (hp : tok127 <+: ch :: rest) :
    replRun a c (ch :: rest) = a ++ replRun a c (rest.drop 8) := by
  unfold replRun
  simp only [List.length_cons, replRunF]
  rw [if_pos hp]
  congr 1
  exact replRunF_congr (by simp only [List.length_drop]; omega) (Nat.le_refl _)

theorem replRun_tLocal {a c : List Char} {ch : Char} {rest : List Char}
    (hp : tokLocalhost <+: ch :: rest) :
    replRun a c (ch :: rest) = a ++ replRun a c (rest.drop 8) := by
  have hp' := hp
  simp only [tokLocalhost] at hp'
  have hch : ch = 'l' := ((List.cons_prefix_cons.mp hp').1).symm
  subst hch
  have h1 : ¬ tok127 <+: 'l' :: rest := by
    intro hq
    simp only [tok127] at hq
    exact absurd (List.cons_prefix_cons.mp hq).1 (by decide)
  unfold replRun
  simp only [List.length_cons, replRunF]
  rw [if_neg h1, if_pos hp]
  congr 1
  exact replRunF_congr (by simp only [List.length_drop]; omega) (Nat.le_refl _)

theorem replRun_tDefault {a c : List Char} {ch : Char} {rest : List Char}
    (hp : tokDefault <+: ch :: rest) :
    replRun a c (ch :: rest) = c ++ replRun a c (rest.drop 6) := by
  have hp' := hp
  simp only [tokDefault] at hp'
  have hch : ch = 'd' := ((List.cons_prefix_cons.mp hp').1).symm
  subst hch
  have h1 : ¬ tok127 <+: 'd' :: rest := by
    intro hq
    simp only [tok127] at hq
    exact absurd (List.cons_prefix_cons.mp hq).1 (by decide)
  have h2 : ¬ tokLocalhost <+: 'd' :: rest := by
    intro hq
    simp only [tokLocalhost] at hq
    exact absurd (List.cons_prefix_cons.mp hq).1 (by decide)
  unfold replRun
  simp only [List.length_cons, replRunF]
  rw [if_neg h1, if_neg h2, if_pos hp]
  congr 1
  exact replRunF_congr (by simp only [List.length_drop]; omega) (Nat.le_refl _)

theorem replRun_matchTok {a c t l : List Char} (ht : IsTok t) (hp : t <+: l) :
    replRun a c l = replOf a c t ++ replRun a c (l.drop t.length) := by
  rcases l with _ | ⟨ch, rest⟩
  · exact absurd (preNil hp) (isTok_ne_nil ht)
  · rcases ht with h | h | h <;> subst h
    · rw [replRun_t127 hp, replOf, if_neg (by decide)]
      simp [tok127]
    · rw [replRun_tLocal hp, replOf, if_neg (by decide)]
      simp [tokLocalhost]
    · rw [replRun_tDefault hp, replOf, if_pos rfl]
      simp [tokDefault]

theorem replRun_copy {a c : List Char} {ch : Char} {rest : List Char}
    (h : ¬ TokStarts (ch :: rest)) :
    replRun a c (ch :: rest) = ch :: replRun a c rest := by
  unfold TokStarts at h
  push_neg at h
  unfold replRun
  simp only [List.length_cons, replRunF]
  rw [if_neg h.1, if_neg h.2.1, if_neg h.2.2]

theorem replRun_noOcc {a c : List Char} : ∀ {l : List Char}, ¬ TokOcc l → replRun a c l = l := by
  intro l
  induction l with
  | nil => intro _; exact replRun_nil
  | cons ch rest ih =>
    intro h
    have hs : ¬ TokStarts (ch :: rest) := by
      intro hs
      apply h
      unfold TokStarts at hs
      unfold TokOcc
      rcases hs with h1 | h1 | h1
      · exact Or.inl h1.isInfix
      · exact Or.inr (Or.inl h1.isInfix)
      · exact Or.inr (Or.inr h1.isInfix)
    have hrest : ¬ TokOcc rest := by
      intro ho
      apply h
      unfold TokOcc at ho ⊢
      rcases ho with h1 | h1 | h1
      · exact Or.inl (occCons h1)
      · exact Or.inr (Or.inl (occCons h1))
      · exact Or.inr (Or.inr (occCons h1))
    rw [replRun_copy hs, ih hrest]

/-! ### Introduction and elimination forms for token predicates -/

def tokens : List (List Char) := [tok127, tokLocalhost, tokDefault]

theorem isTok_iff_mem {t : List Char} : IsTok t ↔ t ∈ tokens := by
  unfold IsTok tokens
  simp

theorem tokOcc_intro {t l : List Char} (ht : IsTok t) (h : t <:+: l) : TokOcc l := by
  unfold TokOcc
  rcases ht with h1 | h1 | h1 <;> subst h1
  · exact Or.inl h
  · exact Or.inr (Or.inl h)
  · exact Or.inr (Or.inr h)

theorem tokOcc_elim {l : List Char} (h : TokOcc l) : ∃ t, IsTok t ∧ t <:+: l := by
  unfold TokOcc at h
  rcases h with h1 | h1 | h1
  · exact ⟨tok127, Or.inl rfl, h1⟩
  · exact ⟨tokLocalhost, Or.inr (Or.inl rfl), h1⟩
  · exact ⟨tokDefault, Or.inr (Or.inr rfl), h1⟩

theorem tokStarts_intro {t l : List Char} (ht : IsTok t) (h : t <+: l) : TokStarts l := by
  unfold TokStarts
  rcases ht with h1 | h1 | h1 <;> subst h1
  · exact Or.inl h
  · exact Or.inr (Or.inl h)
  · exact Or.inr (Or.inr h)

theorem tokStarts_elim {l : List Char} (h : TokStarts l) : ∃ t, IsTok t ∧ t <+: l := by
  unfold TokStarts at h
  rcases h with h1 | h1 | h1
  · exact ⟨tok127, Or.inl rfl, h1⟩
  · exact ⟨tokLocalhost, Or.inr (Or.inl rfl), h1⟩
  · exact ⟨tokDefault, Or.inr (Or.inr rfl), h1⟩

theorem replOf_cases (a c t : List Char) : replOf a c t = a ∨ replOf a c t = c := by
  unfold replOf
  split
  · exact Or.inr rfl
  · exact Or.inl rfl

theorem ne_of_appendRight {s u t : List Char} (he : t = s ++ u) (hu : u ≠ []) : s ≠ t := by
  intro hst
  subst hst
  have hl := congrArg List.length he
  simp at hl
  exact hu hl

/-! ### Safe replacement values

A replacement value `r` is safe when no token occurs in it, no nonempty
proper suffix of a token is a prefix of `r`, no nonempty proper prefix of
a token is a suffix of `r`, and `r` is not an interior factor of a
token.  These are exactly the conditions under which the single-pass
replacer can neither keep nor re-form a token around an emitted
replacement. -/

def SafeRepl (r : List Char) : Prop :=
  ¬ TokOcc r ∧
  (∀ t ∈ tokens, ∀ s ∈ t.tails, s ≠ [] → s ≠ t → ¬ s <+: r) ∧
  (∀ t ∈ tokens, ∀ p ∈ t.inits, p ≠ [] → p ≠ t → ¬ p <:+ r) ∧
  (∀ t ∈ tokens, ∀ x ∈ t.inits, ∀ y ∈ t.tails, t = x ++ r ++ y → x = [] ∨ y = [])

instance (r : List Char) : Decidable (SafeRepl r) := by
  unfold SafeRepl
  infer_instance

theorem SafeRepl.sufNotPre {r : List Char} (h : SafeRepl r) (t s : List Char)
    (ht : IsTok t) (hs : s <:+ t) (h0 : s ≠ []) (h1 : s ≠ t) : ¬ s <+: r :=
  h.2.1 t (isTok_iff_mem.mp ht) s ((List.mem_tails s t).mpr hs) h0 h1

theorem SafeRepl.preNotSuf {r : List Char} (h : SafeRepl r) (t p : List Char)
    (ht : IsTok t) (hp : p <+: t) (h0 : p ≠ []) (h1 : p ≠ t) : ¬ p <:+ r :=
  h.2.2.1 t (isTok_iff_mem.mp ht) p ((List.mem_inits p t).mpr hp) h0 h1

theorem SafeRepl.notInner {r : List Char} (h : SafeRepl r) (t x y : List Char)
    (ht : IsTok t) (he : t = x ++ r ++ y) : x = [] ∨ y = [] := by
  refine h.2.2.2 t (isTok_iff_mem.mp ht) x ?_ y ?_ he
  · exact (List.mem_inits x t).mpr ⟨r ++ y, by rw [← List.append_assoc]; exact he.symm⟩
  · exact (List.mem_tails y t).mpr ⟨x ++ r, he.symm⟩

theorem SafeRepl.ne_nil {r : List Char} (h : SafeRepl r) : r ≠ [] := by
  intro he
  subst he
  have := h.notInner tok127 ['1'] ['2', '7', '.', '0', '.', '0', '.', '1'] (Or.inl rfl) (by decide)
  rcases this with h1 | h1 <;> exact absurd h1 (by decide)

/-! ### Decomposition of occurrences across appends and scanner output -/

theorem occAppendCases {t x y : List Char} (h : t <:+: x ++ y) :
    t <:+: x ∨ t <:+: y ∨ ∃ s u, t = s ++ u ∧ s ≠ [] ∧ u ≠ [] ∧ s <:+ x ∧ u <+: y := by
  induction x with
  | nil => exact Or.inr (Or.inl (by simpa using h))
  | cons ch x' ih =>
    rw [List.cons_append] at h
    rcases occConsIff.mp h with hpre | hin
    · rw [← List.cons_append] at hpre
      rcases preAppendSplit hpre with hpx | ⟨v, hv, hvy⟩
      · exact Or.inl hpx.isInfix
      · rcases eq_or_ne v [] with rfl | hne
        · rw [List.append_nil] at hv
          subst hv
          exact Or.inl (List.infix_refl _)
        · exact Or.inr (Or.inr ⟨ch :: x', v, hv, by simp, hne, List.suffix_refl _, hvy⟩)
    · rcases ih hin with h1 | h1 | ⟨s, u, he, h2, h3, h4, h5⟩
      · exact Or.inl (occCons h1)
      · exact Or.inr (Or.inl h1)
      · exact Or.inr (Or.inr ⟨s, u, he, h2, h3, h4.trans (List.suffix_cons ch x'), h5⟩)

/-- Any prefix of the scanner's output splits into a copied prefix of the
input followed by (a prefix of, or all of) the replacement emitted at the
first match. -/
theorem preReplRun {a c : List Char} : ∀ {rest t2 : List Char}, t2 <+: replRun a c rest →
    ∃ w v, t2 = w ++ v ∧ w <+: rest ∧
      (v = [] ∨ ∃ t, IsTok t ∧ t <+: rest.drop w.length ∧
        (v <+: replOf a c t ∨ ∃ u, v = replOf a c t ++ u ∧ u ≠ [])) := by
  intro rest
  induction rest with
  | nil =>
    intro t2 h
    rw [replRun_nil] at h
    exact ⟨[], [], (preNil h).symm ▸ rfl, List.nil_prefix, Or.inl rfl⟩
  | cons ch r' ih =>
    intro t2 h
    by_cases hTS : TokStarts (ch :: r')
    · obtain ⟨t, ht, hp⟩ := tokStarts_elim hTS
      rw [replRun_matchTok ht hp] at h
      rcases preAppendSplit h with hpr | ⟨v', hv', hvy⟩
      · exact ⟨[], t2, rfl, List.nil_prefix, Or.inr ⟨t, ht, by simpa using hp, Or.inl hpr⟩⟩
      · rcases eq_or_ne v' [] with rfl | hne
        · rw [List.append_nil] at hv'
          exact ⟨[], t2, rfl, List.nil_prefix,
            Or.inr ⟨t, ht, by simpa using hp, Or.inl (hv' ▸ List.prefix_refl _)⟩⟩
        · exact ⟨[], t2, rfl, List.nil_prefix,
            Or.inr ⟨t, ht, by simpa using hp, Or.inr ⟨v', hv', hne⟩⟩⟩
    · rw [replRun_copy hTS] at h
      rcases t2 with _ | ⟨ch2, t3⟩
      · exact ⟨[], [], rfl, List.nil_prefix, Or.inl rfl⟩
      · obtain ⟨hch, h3⟩ := List.cons_prefix_cons.mp h
        subst hch
        obtain ⟨w3, v, he, hw, hcase⟩ := ih h3
        refine ⟨ch2 :: w3, v, by rw [he, List.cons_append], List.cons_prefix_cons.mpr ⟨rfl, hw⟩, ?_⟩
        rcases hcase with h4 | ⟨t, ht, hmt, hvc⟩
        · exact Or.inl h4
        · exact Or.inr ⟨t, ht, by simpa using hmt, hvc⟩

/-! ### Main correctness theorems for the single-pass replacer -/

/-- With safe replacement values no token survives (or is re-formed by)
the scan. -/
theorem replRun_safe_noOcc {a c : List Char} (ha : SafeRepl a) (hc : SafeRepl c) :
    ∀ doc, ¬ TokOcc (replRun a c doc) := by
  have safeOf : ∀ t, SafeRepl (replOf a c t) := by
    intro t
    rcases replOf_cases a c t with h | h <;> rw [h]
    · exact ha
    · exact hc
  have main : ∀ n (doc : List Char), doc.length ≤ n → ¬ TokOcc (replRun a c doc) := by
    intro n
    induction n with
    | zero =>
      intro doc hlen
      have hd : doc = [] := List.eq_nil_of_length_eq_zero (Nat.le_zero.mp hlen)
      subst hd
      rw [replRun_nil]
      decide
    | succ n ih =>
      intro doc hlen
      rcases doc with _ | ⟨ch, rest⟩
      · rw [replRun_nil]; decide
      · by_cases hTS : TokStarts (ch :: rest)
        · obtain ⟨t, ht, hp⟩ := tokStarts_elim hTS
          rw [replRun_matchTok ht hp]
          intro hocc
          obtain ⟨t', ht', hocc'⟩ := tokOcc_elim hocc
          rcases occAppendCases hocc' with hx | hy | ⟨s, u, he, hs0, hu0, hsx, huy⟩
          · exact (safeOf t).1 (tokOcc_intro ht' hx)
          · have htl : 2 ≤ t.length := isTok_two_le_length ht
            have hlen' : ((ch :: rest).drop t.length).length ≤ n := by
              simp only [List.length_drop, List.length_cons]
              simp only [List.length_cons] at hlen
              omega
            exact ih _ hlen' (tokOcc_intro ht' hy)
          · have hsp : s <+: t' := ⟨u, he.symm⟩
            have hst : s ≠ t' := ne_of_appendRight he hu0
            exact (safeOf t).preNotSuf t' s ht' hsp hs0 hst hsx
        · rw [replRun_copy hTS]
          intro hocc
          obtain ⟨t', ht', hocc'⟩ := tokOcc_elim hocc
          rcases occConsIff.mp hocc' with hpre | hin
          · rcases ht2 : t' with _ | ⟨ch1, t2⟩
            · exact absurd ht2 (isTok_ne_nil ht')
            · rw [ht2] at hpre
              obtain ⟨hch, h3⟩ := List.cons_prefix_cons.mp hpre
              subst hch
              obtain ⟨w, v, he, hw, hcase⟩ := preReplRun h3
              rcases eq_or_ne v [] with rfl | hvne
              · rw [List.append_nil] at he
                apply hTS
                apply tokStarts_intro ht'
                rw [ht2]
                exact List.cons_prefix_cons.mpr ⟨rfl, by rw [he]; exact hw⟩
              · rcases hcase with h4 | ⟨t3, ht3, hmt, hvc⟩
                · exact absurd h4 hvne
                · rcases hvc with hvp | ⟨u, hu, hu0⟩
                  · have hsuf : v <:+ t' := by
                      rw [ht2, he]
                      exact (List.suffix_append w v).trans (List.suffix_cons ch1 (w ++ v))
                    have hvt : v ≠ t' := by
                      intro h0
                      have hl : t'.length = w.length + v.length + 1 := by
                        rw [ht2, he]
                        simp
                      rw [← h0] at hl
                      omega
                    exact (safeOf t3).sufNotPre t' v ht' hsuf hvne hvt hvp
                  · have hinner : t' = (ch1 :: w) ++ replOf a c t3 ++ u := by
                      rw [ht2, he, hu]
                      simp
                    rcases (safeOf t3).notInner t' (ch1 :: w) u ht' hinner with h0 | h0
                    · exact absurd h0 (by simp)
                    · exact absurd h0 hu0
          · refine ih rest ?_ (tokOcc_intro ht' hin)
            simp only [List.length_cons] at hlen
            omega
  intro doc
  exact main doc.length doc (Nat.le_refl _)

/-- A token occurrence preceded only by match-free text is replaced, and
the scan then continues after it. -/
theorem replRun_cleanStep {a c : List Char} :
    ∀ (s : List Char) {t rest : List Char}, IsTok t →
      (∀ s2, s2 ≠ [] → s2 <:+ s → ¬ TokStarts (s2 ++ (t ++ rest))) →
      replRun a c (s ++ t ++ rest) = s ++ replOf a c t ++ replRun a c rest := by
  intro s
  induction s with
  | nil =>
    intro t rest ht _
    simp only [List.nil_append]
    rw [replRun_matchTok ht (preAppendSelf t rest), List.drop_left]
  | cons ch s' ih =>
    intro t rest ht hclean
    have h0 : ¬ TokStarts (ch :: (s' ++ (t ++ rest))) := by
      have := hclean (ch :: s') (by simp) (List.suffix_refl _)
      simpa using this
    have heq : (ch :: s') ++ t ++ rest = ch :: (s' ++ (t ++ rest)) := by simp
    rw [heq, replRun_copy h0]
    have hih := ih ht (fun s2 h1 h2 => hclean s2 h1 (h2.trans (List.suffix_cons ch s')))
    rw [show s' ++ (t ++ rest) = s' ++ t ++ rest by simp, hih]
    simp

theorem rewriteKubeconfig_eq_replRun {a c : List Char} (hc : c ≠ []) (doc : List Char) :
    rewriteKubeconfig doc a c = replRun a c doc := by
  unfold rewriteKubeconfig
  rw [if_neg hc]

/-- C3 (counterexample): the claim quantifies over every `targetAddress` and
`contextName`; taking `targetAddress = "default"` on a document that contains
all three tokens leaves an occurrence of `default` in the output (the one
substituted for `127.0.0.1`), so the output does not have zero remaining
occurrences of the three tokens. -/
theorem C3_rewrite_counterexample :
    (tok127 <:+: ("127.0.0.1 localhost default").data ∧
     tokLocalhost <:+: ("127.0.0.1 localhost default").data ∧
     tokDefault <:+: ("127.0.0.1 localhost default").data) ∧
    TokOcc (rewriteKubeconfig ("127.0.0.1 localhost default").data tokDefault
      ['c', 't', 'x', '9']) := by
  decide

/-- C3 (amended): for safe replacement values — `targetAddress` and
`contextName` nonempty and token-free, with no nonempty proper suffix of a
token as a prefix, no nonempty proper prefix of a token as a suffix, and
neither being an interior factor of a token — `rewriteKubeconfig` leaves
zero occurrences of `127.0.0.1`, `localhost` and `default` in any document;
every token occurrence that is preceded only by match-free text is replaced
by `targetAddress` (for the two addresses) or `contextName` (for `default`)
with all surrounding bytes unchanged, and token-free documents pass through
unchanged. -/
theorem C3_rewrite_amended (a c : List Char) (ha : SafeRepl a) (hc : SafeRepl c) :
    (∀ doc, ¬ TokOcc (rewriteKubeconfig doc a c)) ∧
    (∀ s t rest, IsTok t →
      (∀ s2, s2 ≠ [] → s2 <:+ s → ¬ TokStarts (s2 ++ (t ++ rest))) →
      rewriteKubeconfig (s ++ t ++ rest) a c = s ++ replOf a c t ++ replRun a c rest) ∧
    (∀ doc, ¬ TokOcc doc → rewriteKubeconfig doc a c = doc) := by
  have hcne := hc.ne_nil
  refine ⟨?_, ?_, ?_⟩
  · intro doc
    rw [rewriteKubeconfig_eq_replRun hcne]
    exact replRun_safe_noOcc ha hc doc
  · intro s t rest ht hcl
    rw [rewriteKubeconfig_eq_replRun hcne]
    exact replRun_cleanStep s ht hcl
  · intro doc hd
    rw [rewriteKubeconfig_eq_replRun hcne]
    exact replRun_noOcc hd

theorem C3_rewrite_amended_witness :
    (SafeRepl ['9', '.', '9', '.', '9', '.', '9'] ∧ SafeRepl ['c', 't', 'x', '9']) ∧
    ¬ TokOcc (rewriteKubeconfig ("server: https://127.0.0.1:6443 name: default host: localhost").data
      ['9', '.', '9', '.', '9', '.', '9'] ['c', 't', 'x', '9']) :=
  ⟨⟨by decide, by decide⟩,
    (C3_rewrite_amended ['9', '.', '9', '.', '9', '.', '9'] ['c', 't', 'x', '9']
      (by decide) (by decide)).1 _⟩

/-- C9 (counterexample): the claim says the output can contain one of the
three tokens exactly when a replacement value contains one.  But on the
document `127.0.0.127.0.0.1` with `targetAddress = "1"` the two occurrences
of `127.0.0.1` overlap; only the first is replaced and the output `1` ++
`27.0.0.1` re-forms the token `127.0.0.1` even though neither replacement
value contains any token. -/
theorem C9_no_rescan_counterexample :
    (¬ TokOcc ['1']) ∧ (¬ TokOcc ['c', 't', 'x', '9']) ∧
    TokOcc (rewriteKubeconfig ("127.0.0.127.0.0.1").data ['1'] ['c', 't', 'x', '9']) := by
  decide

/-- C9 (amended): the scan is a single left-to-right pass: when a token is
matched, its replacement value is emitted verbatim — even if the value
itself contains tokens, it is never rescanned — and scanning resumes with
the text after the matched occurrence only.  Consequently the output can
contain tokens when a replacement value contains them, but tokens can also
be re-formed at the boundary of an emitted replacement even when no
replacement value contains one. -/
theorem C9_no_rescan (a c t rest : List Char) (ht : IsTok t) (hc : c ≠ []) :
    rewriteKubeconfig (t ++ rest) a c = replOf a c t ++ replRun a c rest := by
  rw [rewriteKubeconfig_eq_replRun hc, replRun_matchTok ht (preAppendSelf t rest), List.drop_left]

theorem C9_no_rescan_witness :
    (IsTok tok127 ∧ (['c', 't', 'x', '9'] : List Char) ≠ []) ∧
    rewriteKubeconfig (tok127 ++ []) tokDefault ['c', 't', 'x', '9'] =
      replOf tokDefault ['c', 't', 'x', '9'] tok127 ++ replRun tokDefault ['c', 't', 'x', '9'] [] :=
  ⟨⟨by decide, by decide⟩,
    C9_no_rescan tokDefault ['c', 't', 'x', '9'] tok127 [] (by decide) (by decide)⟩

/-! ### Credential resolution (`loadAuthMethod` / `sshAgent`)

The Go functions perform IO against the filesystem, the SSH agent socket
and the terminal.  They are embedded as functions over an explicit world
of oracles.  Alongside the result we record an effect trace: how many
times the agent socket was dialled, which files were read, how many times
the user was prompted for a passphrase, and which connections were closed
by the deferred close inside `loadAuthMethod`. -/

inductive ParseOutcome where
  | parsedOk (signer : Nat)
  | passphraseMissing
  | otherError
deriving DecidableEq

inductive AuthMethod where
  | agentCallback (conn : Nat)
  | publicKeys (signer : Nat)
deriving DecidableEq

inductive CloseFn where
  | noop
  | closeConn (conn : Nat)
deriving DecidableEq

inductive AuthError where
  | agentUnreachable
  | keyReadError
  | keyParseError
  | passphraseParseError
deriving DecidableEq

structure AgentKey where
  blob : List Nat
deriving DecidableEq

structure SSHWorld where
  sshAuthSock : String
  dialUnix : String → Option Nat
  agentKeys : Nat → List AgentKey
  readFile : String → Option (List Nat)
  parsePrivateKey : List Nat → ParseOutcome
  parseAuthorizedKey : List Nat → Option (List Nat)
  parsePrivateKeyWithPassphrase : List Nat → List Nat → Option Nat
  readPassword : List Nat

structure Trace where
  agentDials : Nat
  reads : List String
  prompts : Nat
  closedConns : List Nat
deriving DecidableEq

/-- `sshAgent` from cmd/install.go: dial the ambient agent socket; list its
keys (error ignored); read and parse the public-key file; compare the
marshalled key byte-exactly against every identity blob.  A match returns
the agent-backed auth method with a close function for the connection; a
failed dial or a failed comparison loop returns a no-op close, while the
intermediate failures return the connection's close function. -/
def sshAgentGo (w : SSHWorld) (publicKeyPath : String) :
    Option AuthMethod × CloseFn × Trace :=
  match w.dialUnix w.sshAuthSock with
  | some conn =>
    let keys := w.agentKeys conn
    if keys = [] then (none, CloseFn.closeConn conn, ⟨1, [], 0, []⟩)
    else
      match w.readFile publicKeyPath with
      | none => (none, CloseFn.closeConn conn, ⟨1, [publicKeyPath], 0, []⟩)
      | some pubkey =>
        match w.parseAuthorizedKey pubkey with
        | none => (none, CloseFn.closeConn conn, ⟨1, [publicKeyPath], 0, []⟩)
        | some parsedkey =>
          if keys.any (fun k => k.blob == parsedkey) then
            (some (AuthMethod.agentCallback conn), CloseFn.closeConn conn, ⟨1, [publicKeyPath], 0, []⟩)
          else (none, CloseFn.noop, ⟨1, [publicKeyPath], 0, []⟩)
  | none => (none, CloseFn.noop, ⟨1, [], 0, []⟩)

/-- `loadAuthMethod` from cmd/install.go.  An empty key path dials the
ambient agent (failing with the agent-unreachable error).  Otherwise the
key file is read and parsed; a parse failure other than a missing
passphrase is fatal; a missing passphrase first tries the agent fallback
and then prompts once (read errors from the prompt are ignored) and
parses the key with the entered passphrase. -/
def loadAuthMethodGo (w : SSHWorld) (privateKeyPath : String) :
    Except AuthError (AuthMethod × CloseFn) × Trace :=
  if privateKeyPath = "" then
    match w.dialUnix w.sshAuthSock with
    | none => (Except.error AuthError.agentUnreachable, ⟨1, [], 0, []⟩)
    | some conn => (Except.ok (AuthMethod.agentCallback conn, CloseFn.closeConn conn), ⟨1, [], 0, []⟩)
  else
    match w.readFile privateKeyPath with
    | none => (Except.error AuthError.keyReadError, ⟨0, [privateKeyPath], 0, []⟩)
    | some key =>
      match w.parsePrivateKey key with
      | ParseOutcome.parsedOk signer =>
        (Except.ok (AuthMethod.publicKeys signer, CloseFn.noop), ⟨0, [privateKeyPath], 0, []⟩)
      | ParseOutcome.otherError =>
        (Except.error AuthError.keyParseError, ⟨0, [privateKeyPath], 0, []⟩)
      | ParseOutcome.passphraseMissing =>
        let res := sshAgentGo w (privateKeyPath ++ ".pub")
        match res.1 with
        | some a =>
          (Except.ok (a, res.2.1),
            ⟨res.2.2.agentDials, privateKeyPath :: res.2.2.reads, res.2.2.prompts, res.2.2.closedConns⟩)
        | none =>
          let closed : List Nat :=
            match res.2.1 with
            | CloseFn.closeConn conn => [conn]
            | CloseFn.noop => []
          let bytePassword := w.readPassword
          match w.parsePrivateKeyWithPassphrase key bytePassword with
          | some signer =>
            (Except.ok (AuthMethod.publicKeys signer, CloseFn.noop),
              ⟨res.2.2.agentDials, privateKeyPath :: res.2.2.reads, 1, closed⟩)
          | none =>
            (Except.error AuthError.passphraseParseError,
              ⟨res.2.2.agentDials, privateKeyPath :: res.2.2.reads, 1, closed⟩)

inductive FlowError where
  | authErr (e : AuthError)
  | connectErr
deriving DecidableEq

/-- The remote slice of `MakeInstall`'s run function: resolve credentials
with `loadAuthMethod`; on error return before any transport dial; on
success dial the SSH transport exactly once.  The final `Nat` counts
transport dial attempts. -/
def remoteFlowGo (w : SSHWorld) (dialTransport : Option Nat) (sshKeyPath : String) :
    Except FlowError Nat × Trace × Nat :=
  match loadAuthMethodGo w sshKeyPath with
  | (Except.error e, t) => (Except.error (FlowError.authErr e), t, 0)
  | (Except.ok _, t) =>
    match dialTransport with
    | none => (Except.error FlowError.connectErr, t, 1)
    | some op => (Except.ok op, t, 1)

/-- C4: when the private-key file parses with an error other than a missing
passphrase, credential resolution fails immediately with the key-parse
error; the trace shows no agent dial, no read other than the key file
itself (in particular no public-key file read), and no passphrase prompt. -/
theorem C4_keyParse_fatal (w : SSHWorld) (path : String) (key : List Nat)
    (hpath : path ≠ "") (hread : w.readFile path = some key)
    (hparse : w.parsePrivateKey key = ParseOutcome.otherError) :
    loadAuthMethodGo w path = (Except.error AuthError.keyParseError, ⟨0, [path], 0, []⟩) := by
  simp only [loadAuthMethodGo, if_neg hpath, hread, hparse]

theorem C4_keyParse_fatal_witness :
    loadAuthMethodGo
      ⟨"sock", fun _ => none, fun _ => [], fun p => if p = "id_rsa" then some [1] else none,
        fun _ => ParseOutcome.otherError, fun _ => none, fun _ _ => none, []⟩ "id_rsa" =
      (Except.error AuthError.keyParseError, ⟨0, ["id_rsa"], 0, []⟩) :=
  C4_keyParse_fatal _ "id_rsa" [1] (by decide) (by decide) rfl

/-- C5: for a key file that requires a passphrase, when the agent fallback
yields nothing, resolution prompts exactly once; if the key parses with
the entered passphrase the result is a usable signer-backed auth method,
otherwise the passphrase-parse error. -/
theorem C5_passphrase_prompt_once (w : SSHWorld) (path : String) (key : List Nat)
    (hpath : path ≠ "") (hread : w.readFile path = some key)
    (hparse : w.parsePrivateKey key = ParseOutcome.passphraseMissing)
    (hagent : (sshAgentGo w (path ++ ".pub")).1 = none) :
    (loadAuthMethodGo w path).2.prompts = 1 ∧
    (∀ s, w.parsePrivateKeyWithPassphrase key w.readPassword = some s →
      (loadAuthMethodGo w path).1 = Except.ok (AuthMethod.publicKeys s, CloseFn.noop)) ∧
    (w.parsePrivateKeyWithPassphrase key w.readPassword = none →
      (loadAuthMethodGo w path).1 = Except.error AuthError.passphraseParseError) := by
  refine ⟨?_, ?_, ?_⟩
  · simp only [loadAuthMethodGo, if_neg hpath, hread, hparse, hagent]
    cases hpw : w.parsePrivateKeyWithPassphrase key w.readPassword <;> rfl
  · intro s hs
    simp only [loadAuthMethodGo, if_neg hpath, hread, hparse, hagent, hs]
  · intro h0
    simp only [loadAuthMethodGo, if_neg hpath, hread, hparse, hagent, h0]

def worldC5 : SSHWorld :=
  ⟨"sock", fun _ => none, fun _ => [], fun p => if p = "id_rsa" then some [1] else none,
    fun _ => ParseOutcome.passphraseMissing, fun _ => none, fun _ _ => some 7, [3]⟩

theorem C5_passphrase_prompt_once_witness :
    ((loadAuthMethodGo worldC5 "id_rsa").2.prompts = 1) ∧
    (loadAuthMethodGo worldC5 "id_rsa").1 = Except.ok (AuthMethod.publicKeys 7, CloseFn.noop) :=
  ⟨(C5_passphrase_prompt_once worldC5 "id_rsa" [1] (by decide) (by decide) rfl rfl).1,
   (C5_passphrase_prompt_once worldC5 "id_rsa" [1] (by decide) (by decide) rfl rfl).2.1 7 rfl⟩

/-- C6: with an empty private-key path and an undialable agent socket,
resolution fails with the agent-unreachable error and the provisioning
flow attempts no transport dial afterwards (the transport dial count is
zero). -/
theorem C6_agentUnreachable_no_transport (w : SSHWorld) (d : Option Nat)
    (hdial : w.dialUnix w.sshAuthSock = none) :
    remoteFlowGo w d "" =
      (Except.error (FlowError.authErr AuthError.agentUnreachable), ⟨1, [], 0, []⟩, 0) := by
  simp [remoteFlowGo, loadAuthMethodGo, hdial]

theorem C6_agentUnreachable_no_transport_witness :
    remoteFlowGo
      ⟨"sock", fun _ => none, fun _ => [], fun _ => none, fun _ => ParseOutcome.otherError,
        fun _ => none, fun _ _ => none, []⟩ (some 5) "" =
      (Except.error (FlowError.authErr AuthError.agentUnreachable), ⟨1, [], 0, []⟩, 0) :=
  C6_agentUnreachable_no_transport _ (some 5) rfl

/-- C7: the agent-fallback sub-path returns an agent-backed auth method
exactly when the dial succeeds, the identity list is nonempty, the
public-key file (the private-key path plus ".pub") reads and parses, and
some identity blob equals the marshalled key byte-for-byte; and when the
sub-path yields nothing while the key needs a passphrase, resolution falls
through to the passphrase prompt instead of failing. -/
theorem C7_agent_fallback (w : SSHWorld) (p : String) :
    (∀ a cl t, sshAgentGo w p = (some a, cl, t) →
      ∃ conn, w.dialUnix w.sshAuthSock = some conn ∧ w.agentKeys conn ≠ [] ∧
        ∃ pub parsed, w.readFile p = some pub ∧ w.parseAuthorizedKey pub = some parsed ∧
          (w.agentKeys conn).any (fun k => k.blob == parsed) = true ∧
          a = AuthMethod.agentCallback conn ∧ cl = CloseFn.closeConn conn) ∧
    (∀ conn pub parsed, w.dialUnix w.sshAuthSock = some conn → w.agentKeys conn ≠ [] →
      w.readFile p = some pub → w.parseAuthorizedKey pub = some parsed →
      (w.agentKeys conn).any (fun k => k.blob == parsed) = true →
      sshAgentGo w p =
        (some (AuthMethod.agentCallback conn), CloseFn.closeConn conn, ⟨1, [p], 0, []⟩)) ∧
    (∀ path key, p = path ++ ".pub" → path ≠ "" → w.readFile path = some key →
      w.parsePrivateKey key = ParseOutcome.passphraseMissing → (sshAgentGo w p).1 = none →
      (loadAuthMethodGo w path).1 = Except.error AuthError.passphraseParseError ∨
      ∃ s, (loadAuthMethodGo w path).1 = Except.ok (AuthMethod.publicKeys s, CloseFn.noop)) := by
  refine ⟨?_, ?_, ?_⟩
  · intro a cl t h
    cases hd : w.dialUnix w.sshAuthSock with
    | none => simp [sshAgentGo, hd] at h
    | some conn =>
      by_cases hk : w.agentKeys conn = []
      · simp [sshAgentGo, hd, hk] at h
      · cases hr : w.readFile p with
        | none => simp [sshAgentGo, hd, hk, hr] at h
        | some pub =>
          cases hpk : w.parseAuthorizedKey pub with
          | none => simp [sshAgentGo, hd, hk, hr, hpk] at h
          | some parsed =>
            by_cases hany : (w.agentKeys conn).any (fun k => k.blob == parsed) = true
            · simp only [sshAgentGo, hd, hk, hr, hpk, hany, if_true, if_false,
                eq_self_iff_true, Prod.mk.injEq, Option.some.injEq] at h
              obtain ⟨h1, h2, -⟩ := h
              exact ⟨conn, rfl, hk, pub, parsed, rfl, hpk, hany, h1.symm, h2.symm⟩
            · simp [sshAgentGo, hd, hk, hr, hpk, hany] at h
  · intro conn pub parsed hd hk hr hpk hany
    simp only [sshAgentGo, hd, if_neg hk, hr, hpk, if_pos hany]
  · intro path key hp hpath hread hparse hnone
    subst hp
    cases hpw : w.parsePrivateKeyWithPassphrase key w.readPassword with
    | none =>
      refine Or.inl ?_
      simp only [loadAuthMethodGo, if_neg hpath, hread, hparse, hnone, hpw]
    | some s =>
      refine Or.inr ⟨s, ?_⟩
      simp only [loadAuthMethodGo, if_neg hpath, hread, hparse, hnone, hpw]

def worldC7 : SSHWorld :=
  ⟨"sock", fun _ => some 0, fun _ => [⟨[9]⟩],
    fun p => if p = "id_rsa.pub" then some [2] else none,
    fun _ => ParseOutcome.passphraseMissing, fun _ => some [9], fun _ _ => none, []⟩

theorem C7_agent_fallback_witness :
    sshAgentGo worldC7 "id_rsa.pub" =
      (some (AuthMethod.agentCallback 0), CloseFn.closeConn 0, ⟨1, ["id_rsa.pub"], 0, []⟩) :=
  (C7_agent_fallback worldC7 "id_rsa.pub").2.1 0 [2] [9] rfl (by decide) (by decide) rfl (by decide)

/-- C10: when the agent is dialled, its identity list is nonempty, the
public-key file reads and parses, but no identity blob matches, `sshAgent`
returns a no-op close function (not one closing the dialled connection),
so the deferred close in `loadAuthMethod`'s fall-through path closes no
connection. -/
theorem C10_noMatch_noop_close (w : SSHWorld) (p path : String) (conn : Nat)
    (pub parsed key : List Nat)
    (hd : w.dialUnix w.sshAuthSock = some conn) (hk : w.agentKeys conn ≠ [])
    (hr : w.readFile p = some pub) (hpk : w.parseAuthorizedKey pub = some parsed)
    (hany : (w.agentKeys conn).any (fun k => k.blob == parsed) = false) :
    sshAgentGo w p = (none, CloseFn.noop, ⟨1, [p], 0, []⟩) ∧
    (path ≠ "" → p = path ++ ".pub" → w.readFile path = some key →
      w.parsePrivateKey key = ParseOutcome.passphraseMissing →
      (loadAuthMethodGo w path).2.closedConns = []) := by
  have hmain : sshAgentGo w p = (none, CloseFn.noop, ⟨1, [p], 0, []⟩) := by
    have hne : ¬ ((w.agentKeys conn).any (fun k => k.blob == parsed) = true) := by
      rw [hany]
      decide
    simp only [sshAgentGo, hd, if_neg hk, hr, hpk, if_neg hne]
  refine ⟨hmain, ?_⟩
  intro hpath hp hread hparse
  subst hp
  simp only [loadAuthMethodGo, if_neg hpath, hread, hparse, hmain]
  cases hpw : w.parsePrivateKeyWithPassphrase key w.readPassword <;> rfl

def worldC10 : SSHWorld :=
  ⟨"sock", fun _ => some 0, fun _ => [⟨[7]⟩],
    fun p => if p = "id_rsa.pub" then some [2] else
      if p = "id_rsa" then some [1] else none,
    fun _ => ParseOutcome.passphraseMissing, fun _ => some [9], fun _ _ => none, []⟩

theorem C10_noMatch_noop_close_witness :
    sshAgentGo worldC10 "id_rsa.pub" = (none, CloseFn.noop, ⟨1, ["id_rsa.pub"], 0, []⟩) ∧
    (loadAuthMethodGo worldC10 "id_rsa").2.closedConns = [] :=
  ⟨(C10_noMatch_noop_close worldC10 "id_rsa.pub" "id_rsa" 0 [2] [9] [1] rfl (by decide)
      (by decide) rfl (by decide)).1,
   (C10_noMatch_noop_close worldC10 "id_rsa.pub" "id_rsa" 0 [2] [9] [1] rfl (by decide)
      (by decide) rfl (by decide)).2 (by decide) (by decide) (by decide) rfl⟩

/-! ### Kubeconfig persistence (`writeConfig` / `mergeConfigs` / `obtainKubeconfig`)

The filesystem is an explicit map from paths to file records (content and
permission mode).  External behaviour — path absolutisation, write
failures, temp-file naming, the `kubectl config view --merge --flatten`
invocation, and `os.Remove` failures — is supplied by oracles in the
world. -/

structure FileRec where
  data : List Char
  mode : Nat
deriving DecidableEq

structure FsWorld where
  abs : String → String
  writeFails : String → Bool
  tempName : Option String
  mergeOutput : String → String → Option (List Char)
  removeFails : String → Bool

/-- `writeConfig` from cmd/install.go: absolutise the path and write the
data with permission bits 0600.  As with `ioutil.WriteFile`, the mode is
applied only when the file is created; an existing file keeps its mode. -/
def writeConfig (w : FsWorld) (fs : String → Option FileRec) (path : String)
    (data : List Char) (_suppressMessage : Bool) :
    Except Unit (String → Option FileRec) :=
  let absPath := w.abs path
  if w.writeFails absPath then Except.error ()
  else
    Except.ok (fun p =>
      if p = absPath then
        some ⟨data, match fs absPath with | some r => r.mode | none => 0o600⟩
      else fs p)

inductive MergeErr where
  | tempFileErr
  | writeTempErr
  | mergeToolErr
  | tempCleanupErr
deriving DecidableEq

/-- `mergeConfigs` from cmd/install.go: create a uniquely named temporary
file, write the new document into it, run the external merge tool over the
existing path and the temporary path, and only then remove the temporary
file; a removal failure discards the captured output and returns an
error. -/
def mergeConfigs (w : FsWorld) (fs : String → Option FileRec)
    (localKubeconfigPath : String) (k3sconfig : List Char) :
    Except MergeErr (List Char) × (String → Option FileRec) :=
  match w.tempName with
  | none => (Except.error MergeErr.tempFileErr, fs)
  | some tmp =>
    let fs1 : String → Option FileRec := fun p => if p = tmp then some ⟨[], 0o600⟩ else fs p
    match writeConfig w fs1 tmp k3sconfig true with
    | Except.error _ => (Except.error MergeErr.writeTempErr, fs1)
    | Except.ok fs2 =>
      match w.mergeOutput localKubeconfigPath tmp with
      | none => (Except.error MergeErr.mergeToolErr, fs2)
      | some data =>
        if w.removeFails tmp then (Except.error MergeErr.tempCleanupErr, fs2)
        else (Except.ok data, fun p => if p = tmp then none else fs2 p)

inductive ObtainErr where
  | execErr
  | mergeFailed (e : MergeErr)
  | writeErr
deriving DecidableEq

/-- `obtainKubeconfig` from cmd/install.go, after the remote command ran:
rewrite the retrieved document, optionally merge with the existing local
kubeconfig, and write the result to the absolute local path. -/
def obtainKubeconfigGo (w : FsWorld) (fs : String → Option FileRec)
    (execStdOut : Option (List Char)) (ip context : List Char)
    (localKubeconfig : String) (merge : Bool) :
    Except ObtainErr Unit × (String → Option FileRec) :=
  match execStdOut with
  | none => (Except.error ObtainErr.execErr, fs)
  | some stdout =>
    let absPath := w.abs localKubeconfig
    let kc := rewriteKubeconfig stdout ip context
    if merge then
      match mergeConfigs w fs absPath kc with
      | (Except.error e, fs1) => (Except.error (ObtainErr.mergeFailed e), fs1)
      | (Except.ok data, fs1) =>
        match writeConfig w fs1 absPath data false with
        | Except.error _ => (Except.error ObtainErr.writeErr, fs1)
        | Except.ok fs2 => (Except.ok (), fs2)
    else
      match writeConfig w fs absPath kc false with
      | Except.error _ => (Except.error ObtainErr.writeErr, fs)
      | Except.ok fs1 => (Except.ok (), fs1)

def worldC1 : FsWorld :=
  ⟨id, fun _ => false, some "/tmp/k3s-temp-1", fun _ _ => none, fun _ => false⟩

/-- C1 (counterexample): when the external merge tool fails, `mergeConfigs`
returns the merge-tool error and the temporary file is still on disk, so
the temporary file does not always cease to exist when `merge` returns. -/
theorem C1_merge_temp_counterexample :
    (mergeConfigs worldC1 (fun _ => none) "/home/u/kubeconfig" ['x']).1 =
      Except.error MergeErr.mergeToolErr ∧
    (mergeConfigs worldC1 (fun _ => none) "/home/u/kubeconfig" ['x']).2 "/tmp/k3s-temp-1" =
      some ⟨['x'], 0o600⟩ :=
  ⟨rfl, rfl⟩

/-- C1 (amended): once the temporary file has been created, it no longer
exists after `mergeConfigs` returns exactly when the call succeeded; on a
temp-write, merge-tool or removal failure the temporary file remains on
disk. -/
theorem C1_merge_temp_amended (w : FsWorld) (fs : String → Option FileRec)
    (path : String) (doc : List Char) (tmp : String)
    (htmp : w.tempName = some tmp) (habs : w.abs tmp = tmp) :
    ((∃ d, (mergeConfigs w fs path doc).1 = Except.ok d) ↔
      (mergeConfigs w fs path doc).2 tmp = none) := by
  unfold mergeConfigs writeConfig
  rw [htmp]
  simp only [habs]
  by_cases hw : w.writeFails tmp = true
  · simp [hw]
  · simp only [Bool.not_eq_true] at hw
    simp only [hw]
    cases hm : w.mergeOutput path tmp with
    | none => simp
    | some d =>
      by_cases hrm : w.removeFails tmp = true
      · simp [hrm]
      · simp only [Bool.not_eq_true] at hrm
        simp [hrm]

def worldC1ok : FsWorld :=
  ⟨id, fun _ => false, some "/tmp/k3s-temp-2", fun _ _ => some ['m'], fun _ => false⟩

theorem C1_merge_temp_amended_witness :
    ((∃ d, (mergeConfigs worldC1ok (fun _ => none) "/home/u/kubeconfig" ['x']).1 = Except.ok d) ↔
      (mergeConfigs worldC1ok (fun _ => none) "/home/u/kubeconfig" ['x']).2 "/tmp/k3s-temp-2" =
        none) :=
  C1_merge_temp_amended worldC1ok (fun _ => none) "/home/u/kubeconfig" ['x'] "/tmp/k3s-temp-2"
    rfl rfl

def worldC2 : FsWorld :=
  ⟨id, fun _ => false, some "/tmp/k3s-temp-3", fun _ _ => some ['m'], fun _ => true⟩

/-- C2 (counterexample): the merge tool succeeds (the oracle captures the
merged bytes) but removing the temporary file fails; `mergeConfigs` then
returns the cleanup error and not the merged bytes, so the merge result is
invalidated rather than returned alongside the cleanup report. -/
theorem C2_cleanup_counterexample :
    worldC2.mergeOutput "/home/u/kubeconfig" "/tmp/k3s-temp-3" = some ['m'] ∧
    (mergeConfigs worldC2 (fun _ => none) "/home/u/kubeconfig" ['x']).1 =
      Except.error MergeErr.tempCleanupErr :=
  ⟨rfl, rfl⟩

/-- C2 (amended): when merge output capture succeeds but removing the
temporary file fails, `mergeConfigs` discards the merged bytes already
obtained and fails with the temp-cleanup error, leaving the temporary file
on disk. -/
theorem C2_cleanup_discards (w : FsWorld) (fs : String → Option FileRec)
    (path : String) (doc : List Char) (tmp : String) (d : List Char)
    (htmp : w.tempName = some tmp) (habs : w.abs tmp = tmp)
    (hw : w.writeFails tmp = false) (hm : w.mergeOutput path tmp = some d)
    (hrm : w.removeFails tmp = true) :
    (mergeConfigs w fs path doc).1 = Except.error MergeErr.tempCleanupErr ∧
    (mergeConfigs w fs path doc).2 tmp = some ⟨doc, 0o600⟩ := by
  unfold mergeConfigs writeConfig
  rw [htmp]
  simp only [habs, hw, hm, hrm]
  simp

theorem C2_cleanup_discards_witness :
    (mergeConfigs worldC2 (fun _ => none) "/home/u/kubeconfig" ['x']).1 =
      Except.error MergeErr.tempCleanupErr ∧
    (mergeConfigs worldC2 (fun _ => none) "/home/u/kubeconfig" ['x']).2 "/tmp/k3s-temp-3" =
      some ⟨['x'], 0o600⟩ :=
  C2_cleanup_discards worldC2 (fun _ => none) "/home/u/kubeconfig" ['x'] "/tmp/k3s-temp-3" ['m']
    rfl rfl rfl rfl rfl

/-- C8: on every successful run of the post-processing pipeline — merged or
not — the final document lands at the absolute caller-specified path via
`writeConfig`, created with owner-only permission bits 0600 when the file
did not exist before; no other path (apart from the removed temporary
merge file) is touched. -/
theorem C8_write_mode600 (w : FsWorld) (fs : String → Option FileRec)
    (stdout ip ctx : List Char) (lp : String)
    (habs2 : w.abs (w.abs lp) = w.abs lp)
    (hnew : fs (w.abs lp) = none)
    (hwf : w.writeFails (w.abs lp) = false) :
    ((obtainKubeconfigGo w fs (some stdout) ip ctx lp false).1 = Except.ok () ∧
     (obtainKubeconfigGo w fs (some stdout) ip ctx lp false).2 (w.abs lp) =
       some ⟨rewriteKubeconfig stdout ip ctx, 0o600⟩ ∧
     (∀ p, p ≠ w.abs lp → (obtainKubeconfigGo w fs (some stdout) ip ctx lp false).2 p = fs p)) ∧
    (∀ tmp d, w.tempName = some tmp → w.abs tmp = tmp → tmp ≠ w.abs lp →
      w.writeFails tmp = false → w.mergeOutput (w.abs lp) tmp = some d →
      w.removeFails tmp = false →
      (obtainKubeconfigGo w fs (some stdout) ip ctx lp true).1 = Except.ok () ∧
      (obtainKubeconfigGo w fs (some stdout) ip ctx lp true).2 (w.abs lp) = some ⟨d, 0o600⟩ ∧
      (obtainKubeconfigGo w fs (some stdout) ip ctx lp true).2 tmp = none ∧
      (∀ p, p ≠ w.abs lp → p ≠ tmp →
        (obtainKubeconfigGo w fs (some stdout) ip ctx lp true).2 p = fs p)) := by
  constructor
  · refine ⟨?_, ?_, ?_⟩
    · simp [obtainKubeconfigGo, writeConfig, habs2, hwf]
    · simp [obtainKubeconfigGo, writeConfig, habs2, hwf, hnew]
    · intro p hp
      simp [obtainKubeconfigGo, writeConfig, habs2, hwf, hp]
  · intro tmp d htmp habs hne hwtmp hm hrm
    have hne2 : w.abs lp ≠ tmp := fun h0 => hne h0.symm
    refine ⟨?_, ?_, ?_, ?_⟩
    · simp [obtainKubeconfigGo, mergeConfigs, writeConfig, htmp, habs, habs2, hwtmp, hwf,
        hm, hrm]
    · simp [obtainKubeconfigGo, mergeConfigs, writeConfig, htmp, habs, habs2, hwtmp, hwf,
        hm, hrm, hne, hne2, hnew]
    · simp [obtainKubeconfigGo, mergeConfigs, writeConfig, htmp, habs, habs2, hwtmp, hwf,
        hm, hrm, hne, hne2]
    · intro p hp hptmp
      simp [obtainKubeconfigGo, mergeConfigs, writeConfig, htmp, habs, habs2, hwtmp, hwf,
        hm, hrm, hp, hptmp]

def worldC8 : FsWorld :=
  ⟨id, fun _ => false, some "/tmp/k3s-temp-4", fun _ _ => some ['m'], fun _ => false⟩

theorem C8_write_mode600_witness :
    (obtainKubeconfigGo worldC8 (fun _ => none) (some ['s']) ['i'] ['c'] "kc" false).2
      (worldC8.abs "kc") = some ⟨rewriteKubeconfig ['s'] ['i'] ['c'], 0o600⟩ ∧
    (obtainKubeconfigGo worldC8 (fun _ => none) (some ['s']) ['i'] ['c'] "kc" true).2
      (worldC8.abs "kc") = some ⟨['m'], 0o600⟩ :=
  ⟨((C8_write_mode600 worldC8 (fun _ => none) ['s'] ['i'] ['c'] "kc" rfl rfl rfl).1).2.1,
   ((C8_write_mode600 worldC8 (fun _ => none) ['s'] ['i'] ['c'] "kc" rfl rfl rfl).2
      "/tmp/k3s-temp-4" ['m'] rfl rfl (by decide) rfl rfl rfl).2.1⟩

end K3sup
